import Mathlib

/-
Verification of the balance-polling pipeline of defi_robot.py.

Shallow embedding conventions:
- Python floats that hold USD amounts are modelled as rationals (ℚ); the raw
  uint256 results of contract reads are modelled as ℕ.
- The SQLite table defi_snapshots is modelled as a list of rows kept in
  insertion order together with the AUTOINCREMENT counter; `DB.WF` states the
  invariant that ids are strictly increasing along insertion order and bounded
  by the counter, which is what AUTOINCREMENT guarantees.
- Web3 contract reads are modelled by an oracle that maps each contract call to
  either a result or a transport error; the attempt index lets the oracle
  answer differently on retries.
- The unbounded self-recursion of get_balances is modelled with explicit fuel:
  a `none` result stands for the non-terminating all-attempts-fail case, and is
  never produced when some attempt succeeds within the fuel bound.
-/

/-! ## Configuration (module-level constants of defi_robot.py) -/

def USER : String := "0x0000000000000000000000000000000000000000"

def INTERVALO : Nat := 300

def LIMIT_REGISTROS : Nat := 10000

def RPC_ENDPOINTS : List String :=
  ["https://arbitrum-one-rpc.publicnode.com",
   "https://arb1.arbitrum.io/rpc",
   "https://1rpc.io/arb",
   "https://rpc.ankr.com/arbitrum",
   "https://arbitrum.meowrpc.com"]

def MORPHO_DEFAULT : String := "0x7e97fa6893871A2751B5fE961978DCCb2c201E65"

def AAVE_USDC : String := "0x724dc807b04555b71ed48a6896b6f41593b8c637"

def AAVE_DEBT : String := "0xf611aeb5013fd2c0511c9cd55c7dc5c1140741a6"

def EULER_USDC_EARN : String := "0xe4783824593a50Bfe9dc873204CEc171ebC62dE0"

/-! ## RPC failover state (globals current_rpc_index and provider) -/

structure RpcState where
  current_rpc_index : Nat
  provider : String
deriving DecidableEq, Repr

/-- switch_rpc generalised over the endpoint list it reads: the index moves
forward by one modulo the pool size and the provider is rebuilt from the
endpoint at the new index. -/
def switch_rpc_in (endpoints : List String) (st : RpcState) : RpcState :=
  let i := (st.current_rpc_index + 1) % endpoints.length
  { current_rpc_index := i, provider := endpoints.getD i "" }

/-- switch_rpc of the source: acts on the fixed RPC_ENDPOINTS pool. -/
def switch_rpc : RpcState → RpcState := switch_rpc_in RPC_ENDPOINTS

lemma switch_rpc_in_iterate (endpoints : List String) (st : RpcState) (k : Nat)
    (hi : st.current_rpc_index < endpoints.length) :
    ((switch_rpc_in endpoints)^[k] st).current_rpc_index
      = (st.current_rpc_index + k) % endpoints.length := by
  induction k generalizing st with
  | zero => simpa using (Nat.mod_eq_of_lt hi).symm
  | succ n ih =>
      rw [Function.iterate_succ_apply]
      have hm : 0 < endpoints.length := lt_of_le_of_lt (Nat.zero_le _) hi
      have hlt : (switch_rpc_in endpoints st).current_rpc_index < endpoints.length :=
        Nat.mod_lt _ hm
      rw [ih _ hlt]
      show ((st.current_rpc_index + 1) % endpoints.length + n) % endpoints.length = _
      rw [Nat.mod_add_mod]
      have harg : st.current_rpc_index + 1 + n = st.current_rpc_index + (n + 1) := by omega
      rw [harg]

/-- C6: advance moves the cursor forward by one modulo the pool size and makes
the endpoint at the new index the active provider; k consecutive advances
return the cursor to its starting point exactly when the pool size divides k;
in the concrete pool [A, B, C] starting at A, two failures leave C active and a
third failure returns to A. -/
theorem switch_rpc_round_robin (endpoints : List String) (st : RpcState) (k : Nat)
    (hm : 0 < endpoints.length) (hi : st.current_rpc_index < endpoints.length) :
    (switch_rpc_in endpoints st).current_rpc_index
        = (st.current_rpc_index + 1) % endpoints.length
    ∧ (switch_rpc_in endpoints st).provider
        = endpoints.getD ((st.current_rpc_index + 1) % endpoints.length) ""
    ∧ ((switch_rpc_in endpoints)^[k] st).current_rpc_index
        = (st.current_rpc_index + k) % endpoints.length
    ∧ (((switch_rpc_in endpoints)^[k] st).current_rpc_index = st.current_rpc_index
        ↔ endpoints.length ∣ k)
    ∧ ((switch_rpc_in ["A", "B", "C"])^[2] ⟨0, "A"⟩).provider = "C"
    ∧ ((switch_rpc_in ["A", "B", "C"])^[3] ⟨0, "A"⟩).provider = "A" := by
  refine ⟨rfl, rfl, switch_rpc_in_iterate endpoints st k hi, ?_, by decide, by decide⟩
  rw [switch_rpc_in_iterate endpoints st k hi]
  constructor
  · intro h
    have hmod : st.current_rpc_index % endpoints.length = st.current_rpc_index :=
      Nat.mod_eq_of_lt hi
    have hcong : Nat.ModEq endpoints.length st.current_rpc_index
        (st.current_rpc_index + k) := by
      unfold Nat.ModEq
      rw [hmod, h]
    have hdvd := (Nat.modEq_iff_dvd' (Nat.le_add_right _ _)).mp hcong
    simpa using hdvd
  · rintro ⟨q, rfl⟩
    rw [Nat.add_mul_mod_self_left]
    exact Nat.mod_eq_of_lt hi

/-! ## BalanceAggregator (get_balances) -/

inductive Method
  | balanceOf
  | convertToAssets
deriving DecidableEq, Repr

inductive CallArg
  | addr (a : String)
  | amount (n : Nat)
deriving DecidableEq, Repr

/-- One contract read: the contract address, the method, and its argument. -/
structure ContractCall where
  contract : String
  method : Method
  arg : CallArg
deriving DecidableEq, Repr

/-- The dict returned by get_balances; Python floats modelled as ℚ. -/
structure BalanceReading where
  morpho : ℚ
  aave : ℚ
  euler : ℚ
  debt : ℚ
  net : ℚ
deriving DecidableEq, Repr

/-- One pass through the try-block of get_balances: the six contract reads in
source order, each answered by the oracle `o`; the first transport failure
aborts the pass (the Python exception propagates to the except handler).  On
success it returns the reading together with the list of calls performed. -/
def attempt_reads (o : ContractCall → Except Unit Nat) (user_address : String) :
    Except Unit (BalanceReading × List ContractCall) :=
  match o ⟨MORPHO_DEFAULT, Method.balanceOf, CallArg.addr user_address⟩ with
  | Except.error e => Except.error e
  | Except.ok morpho_shares =>
  match o ⟨MORPHO_DEFAULT, Method.convertToAssets, CallArg.amount morpho_shares⟩ with
  | Except.error e => Except.error e
  | Except.ok morpho_assets =>
  match o ⟨AAVE_USDC, Method.balanceOf, CallArg.addr user_address⟩ with
  | Except.error e => Except.error e
  | Except.ok aave_balance =>
  match o ⟨AAVE_DEBT, Method.balanceOf, CallArg.addr user_address⟩ with
  | Except.error e => Except.error e
  | Except.ok debt_balance =>
  match o ⟨EULER_USDC_EARN, Method.balanceOf, CallArg.addr user_address⟩ with
  | Except.error e => Except.error e
  | Except.ok euler_shares =>
  match o ⟨EULER_USDC_EARN, Method.convertToAssets, CallArg.amount euler_shares⟩ with
  | Except.error e => Except.error e
  | Except.ok euler_assets =>
    let morpho_usdc : ℚ := (morpho_assets : ℚ) / 1000000
    let aave_usdc : ℚ := (aave_balance : ℚ) / 1000000
    let debt_usdc : ℚ := (debt_balance : ℚ) / 1000000
    let euler_usdc : ℚ := (euler_assets : ℚ) / 1000000
    Except.ok (⟨morpho_usdc, aave_usdc, euler_usdc, debt_usdc,
                morpho_usdc + aave_usdc + euler_usdc - debt_usdc⟩,
        [⟨MORPHO_DEFAULT, Method.balanceOf, CallArg.addr user_address⟩,
         ⟨MORPHO_DEFAULT, Method.convertToAssets, CallArg.amount morpho_shares⟩,
         ⟨AAVE_USDC, Method.balanceOf, CallArg.addr user_address⟩,
         ⟨AAVE_DEBT, Method.balanceOf, CallArg.addr user_address⟩,
         ⟨EULER_USDC_EARN, Method.balanceOf, CallArg.addr user_address⟩,
         ⟨EULER_USDC_EARN, Method.convertToAssets, CallArg.amount euler_shares⟩])

/-- get_balances: on any failure it calls switch_rpc, sleeps 2 seconds and
retries itself.  The self-recursion is modelled with explicit `fuel`; `t` is
the attempt index fed to the oracle; the result carries the reading, the calls
of the successful attempt, the final RPC failover state, and the total seconds
slept in backoff.  `none` models the non-terminating all-attempts-fail case. -/
def get_balances (o : Nat → ContractCall → Except Unit Nat) (user_address : String) :
    Nat → Nat → RpcState → Option (BalanceReading × List ContractCall × RpcState × Nat)
  | 0, _, _ => none
  | fuel + 1, t, st =>
    match attempt_reads (o t) user_address with
    | Except.ok (reading, calls) => some (reading, calls, st, 0)
    | Except.error _ =>
      match get_balances o user_address fuel (t + 1) (switch_rpc st) with
      | some (r, cs, st_1, slept) => some (r, cs, st_1, slept + 2)
      | none => none

/-- A mocked chain: each of the four contracts answers its balanceOf and
convertToAssets reads with the given raw integers, on every attempt. -/
def mock_oracle (morpho_shares morpho_assets aave_balance debt_balance
    euler_shares euler_assets : Nat) : ContractCall → Except Unit Nat :=
  fun c =>
    if c.contract = MORPHO_DEFAULT then
      match c.method with
      | Method.balanceOf => Except.ok morpho_shares
      | Method.convertToAssets => Except.ok morpho_assets
    else if c.contract = AAVE_USDC then Except.ok aave_balance
    else if c.contract = AAVE_DEBT then Except.ok debt_balance
    else if c.contract = EULER_USDC_EARN then
      match c.method with
      | Method.balanceOf => Except.ok euler_shares
      | Method.convertToAssets => Except.ok euler_assets
    else Except.error ()

/-- C2: for every address, RPC state and set of six successful raw reads,
get_balances scales each of the four raw asset/debt results by exactly
1,000,000 and returns net = morpho + aave + euler - debt; on the mocked reads
of the scenario it returns the reading (200, 50, 40, 30, 260). -/
theorem get_balances_scaling (ms ma ab dbt es ea : Nat) (u : String) (st : RpcState) :
    get_balances (fun _ => mock_oracle ms ma ab dbt es ea) u 1 0 st
      = some (⟨(ma : ℚ) / 1000000, (ab : ℚ) / 1000000, (ea : ℚ) / 1000000,
               (dbt : ℚ) / 1000000,
               (ma : ℚ) / 1000000 + (ab : ℚ) / 1000000 + (ea : ℚ) / 1000000
                 - (dbt : ℚ) / 1000000⟩,
              [⟨MORPHO_DEFAULT, Method.balanceOf, CallArg.addr u⟩,
               ⟨MORPHO_DEFAULT, Method.convertToAssets, CallArg.amount ms⟩,
               ⟨AAVE_USDC, Method.balanceOf, CallArg.addr u⟩,
               ⟨AAVE_DEBT, Method.balanceOf, CallArg.addr u⟩,
               ⟨EULER_USDC_EARN, Method.balanceOf, CallArg.addr u⟩,
               ⟨EULER_USDC_EARN, Method.convertToAssets, CallArg.amount es⟩],
              st, 0)
    ∧ (get_balances (fun _ => mock_oracle 100 200000000 50000000 30000000 10 40000000)
          USER 1 0 st).map (fun out => out.1)
        = some ⟨200, 50, 40, 30, 260⟩ := by
  constructor
  · rfl
  · show some (_ : BalanceReading) = _
    norm_num

lemma get_balances_ok_of_first_success (o : Nat → ContractCall → Except Unit Nat)
    (u : String) (n : Nat) :
    ∀ (t fuel : Nat) (st : RpcState) (r : BalanceReading) (cs : List ContractCall),
    (∀ d, d < n → attempt_reads (o (t + d)) u = Except.error ()) →
    attempt_reads (o (t + n)) u = Except.ok (r, cs) →
    n < fuel →
    get_balances o u fuel t st = some (r, cs, switch_rpc^[n] st, 2 * n) := by
  induction n with
  | zero =>
      intro t fuel st r cs _ hok hfuel
      obtain ⟨m, rfl⟩ : ∃ m, fuel = m + 1 := ⟨fuel - 1, by omega⟩
      rw [Nat.add_zero] at hok
      simp [get_balances, hok]
  | succ n ih =>
      intro t fuel st r cs hfail hok hfuel
      obtain ⟨m, rfl⟩ : ∃ m, fuel = m + 1 := ⟨fuel - 1, by omega⟩
      have h0 : attempt_reads (o t) u = Except.error () := by
        have := hfail 0 (Nat.succ_pos n)
        simpa using this
      have hfail' : ∀ d, d < n → attempt_reads (o (t + 1 + d)) u = Except.error () := by
        intro d hd
        have := hfail (d + 1) (by omega)
        have harg : t + (d + 1) = t + 1 + d := by omega
        rwa [harg] at this
      have hok' : attempt_reads (o (t + 1 + n)) u = Except.ok (r, cs) := by
        have harg : t + (n + 1) = t + 1 + n := by omega
        rwa [harg] at hok
      have hrec := ih (t + 1) m (switch_rpc st) r cs hfail' hok' (by omega)
      simp only [get_balances, h0, hrec, Function.iterate_succ_apply, Nat.mul_succ]

lemma get_balances_some_inv (o : Nat → ContractCall → Except Unit Nat) (u : String) :
    ∀ (fuel t : Nat) (st : RpcState) (r : BalanceReading) (cs : List ContractCall)
      (st_1 : RpcState) (w : Nat),
    get_balances o u fuel t st = some (r, cs, st_1, w) →
    ∃ n, n < fuel ∧ (∀ d, d < n → attempt_reads (o (t + d)) u = Except.error ())
      ∧ attempt_reads (o (t + n)) u = Except.ok (r, cs)
      ∧ st_1 = switch_rpc^[n] st ∧ w = 2 * n := by
  intro fuel
  induction fuel with
  | zero => intro t st r cs st_1 w h; cases h
  | succ m ih =>
      intro t st r cs st_1 w h
      rcases hA : attempt_reads (o t) u with e | p
      · rcases hR : get_balances o u m (t + 1) (switch_rpc st) with _ | q
        · simp only [get_balances, hA, hR] at h
          exact Option.noConfusion h
        · obtain ⟨r0, cs0, st0, w0⟩ := q
          simp only [get_balances, hA, hR, Option.some_inj] at h
          obtain ⟨rfl, rfl, rfl, rfl⟩ := h
          obtain ⟨n, hn, hfail, hok, hst0, hw0⟩ := ih (t + 1) (switch_rpc st) _ _ _ _ hR
          refine ⟨n + 1, by omega, ?_, ?_, ?_, by omega⟩
          · intro d hd
            match d with
            | 0 =>
                rw [Nat.add_zero]
                cases e
                exact hA
            | d + 1 =>
                have harg : t + (d + 1) = t + 1 + d := by omega
                rw [harg]
                exact hfail d (by omega)
          · have harg : t + (n + 1) = t + 1 + n := by omega
            rw [harg]
            exact hok
          · rw [hst0, Function.iterate_succ_apply]
      · obtain ⟨r0, cs0⟩ := p
        simp only [get_balances, hA, Option.some_inj] at h
        obtain ⟨rfl, rfl, rfl, rfl⟩ := h
        refine ⟨0, by omega, ?_, ?_, rfl, by omega⟩
        · intro d hd
          exact absurd hd (by omega)
        · rw [Nat.add_zero]
          exact hA

/-- C3: a transport failure is never surfaced by get_balances: every failed
attempt advances the endpoint pool once via switch_rpc and sleeps the fixed
2-second backoff, the whole read sequence is then retried, there is no maximum
attempt count (n is arbitrary), and the call returns exactly the reading of the
first fully successful attempt — conversely, any returned result comes from a
fully successful attempt preceded only by failed attempts. -/
theorem get_balances_unbounded_retry (o : Nat → ContractCall → Except Unit Nat)
    (u : String) (st : RpcState) :
    (∀ (n fuel : Nat) (r : BalanceReading) (cs : List ContractCall),
       (∀ d, d < n → attempt_reads (o d) u = Except.error ()) →
       attempt_reads (o n) u = Except.ok (r, cs) →
       n < fuel →
       get_balances o u fuel 0 st = some (r, cs, switch_rpc^[n] st, 2 * n))
    ∧ (∀ (fuel : Nat) (r : BalanceReading) (cs : List ContractCall)
         (st_1 : RpcState) (w : Nat),
       get_balances o u fuel 0 st = some (r, cs, st_1, w) →
       ∃ n, n < fuel ∧ (∀ d, d < n → attempt_reads (o d) u = Except.error ())
         ∧ attempt_reads (o n) u = Except.ok (r, cs)
         ∧ st_1 = switch_rpc^[n] st ∧ w = 2 * n) := by
  constructor
  · intro n fuel r cs hfail hok hfuel
    have h := get_balances_ok_of_first_success o u n 0 fuel st r cs
        (by simpa using hfail) (by simpa using hok) hfuel
    exact h
  · intro fuel r cs st_1 w h
    have h2 := get_balances_some_inv o u fuel 0 st r cs st_1 w h
    simpa using h2

/-- The reading produced by a successful attempt with raw results
morpho_assets = ma, aave_balance = ab, debt_balance = dbt, euler_assets = ea,
written exactly as the source computes it. -/
def raw_reading (ma ab dbt ea : Nat) : BalanceReading :=
  ⟨(ma : ℚ) / 1000000, (ab : ℚ) / 1000000, (ea : ℚ) / 1000000, (dbt : ℚ) / 1000000,
   (ma : ℚ) / 1000000 + (ab : ℚ) / 1000000 + (ea : ℚ) / 1000000 - (dbt : ℚ) / 1000000⟩

/-- A mocked chain whose first attempt fails with a transport error and whose
later attempts answer with the scenario values. -/
def flaky_oracle : Nat → ContractCall → Except Unit Nat :=
  fun t =>
    if t = 0 then fun _ => Except.error ()
    else mock_oracle 100 200000000 50000000 30000000 10 40000000

theorem get_balances_unbounded_retry_witness :
    get_balances flaky_oracle USER 2 0 ⟨0, "https://arbitrum-one-rpc.publicnode.com"⟩
      = some (raw_reading 200000000 50000000 30000000 40000000,
              [⟨MORPHO_DEFAULT, Method.balanceOf, CallArg.addr USER⟩,
               ⟨MORPHO_DEFAULT, Method.convertToAssets, CallArg.amount 100⟩,
               ⟨AAVE_USDC, Method.balanceOf, CallArg.addr USER⟩,
               ⟨AAVE_DEBT, Method.balanceOf, CallArg.addr USER⟩,
               ⟨EULER_USDC_EARN, Method.balanceOf, CallArg.addr USER⟩,
               ⟨EULER_USDC_EARN, Method.convertToAssets, CallArg.amount 10⟩],
              switch_rpc^[1] ⟨0, "https://arbitrum-one-rpc.publicnode.com"⟩, 2 * 1) :=
  (get_balances_unbounded_retry flaky_oracle USER
      ⟨0, "https://arbitrum-one-rpc.publicnode.com"⟩).1 1 2
    (raw_reading 200000000 50000000 30000000 40000000)
    [⟨MORPHO_DEFAULT, Method.balanceOf, CallArg.addr USER⟩,
     ⟨MORPHO_DEFAULT, Method.convertToAssets, CallArg.amount 100⟩,
     ⟨AAVE_USDC, Method.balanceOf, CallArg.addr USER⟩,
     ⟨AAVE_DEBT, Method.balanceOf, CallArg.addr USER⟩,
     ⟨EULER_USDC_EARN, Method.balanceOf, CallArg.addr USER⟩,
     ⟨EULER_USDC_EARN, Method.convertToAssets, CallArg.amount 10⟩]
    (by intro d hd
        match d with
        | 0 => rfl
        | d + 1 => exact absurd hd (by omega))
    (by rfl) (by omega)

lemma attempt_reads_ok_shape (o : ContractCall → Except Unit Nat) (u : String)
    (r : BalanceReading) (cs : List ContractCall)
    (h : attempt_reads o u = Except.ok (r, cs)) :
    ∃ ms es, cs =
      [⟨MORPHO_DEFAULT, Method.balanceOf, CallArg.addr u⟩,
       ⟨MORPHO_DEFAULT, Method.convertToAssets, CallArg.amount ms⟩,
       ⟨AAVE_USDC, Method.balanceOf, CallArg.addr u⟩,
       ⟨AAVE_DEBT, Method.balanceOf, CallArg.addr u⟩,
       ⟨EULER_USDC_EARN, Method.balanceOf, CallArg.addr u⟩,
       ⟨EULER_USDC_EARN, Method.convertToAssets, CallArg.amount es⟩] := by
  unfold attempt_reads at h
  rcases h1 : o ⟨MORPHO_DEFAULT, Method.balanceOf, CallArg.addr u⟩ with e1 | ms
  · simp only [h1] at h
    exact Except.noConfusion h
  simp only [h1] at h
  rcases h2 : o ⟨MORPHO_DEFAULT, Method.convertToAssets, CallArg.amount ms⟩ with e2 | ma
  · simp only [h2] at h
    exact Except.noConfusion h
  simp only [h2] at h
  rcases h3 : o ⟨AAVE_USDC, Method.balanceOf, CallArg.addr u⟩ with e3 | ab
  · simp only [h3] at h
    exact Except.noConfusion h
  simp only [h3] at h
  rcases h4 : o ⟨AAVE_DEBT, Method.balanceOf, CallArg.addr u⟩ with e4 | dbt
  · simp only [h4] at h
    exact Except.noConfusion h
  simp only [h4] at h
  rcases h5 : o ⟨EULER_USDC_EARN, Method.balanceOf, CallArg.addr u⟩ with e5 | es
  · simp only [h5] at h
    exact Except.noConfusion h
  simp only [h5] at h
  rcases h6 : o ⟨EULER_USDC_EARN, Method.convertToAssets, CallArg.amount es⟩ with e6 | ea
  · simp only [h6] at h
    exact Except.noConfusion h
  simp only [h6] at h
  refine ⟨ms, es, ?_⟩
  have hproj := congrArg (fun x => match x with
      | Except.ok p => p.2
      | Except.error _ => ([] : List ContractCall)) h
  exact hproj.symm

/-- C9 (amended): every fully successful invocation of get_balances performs
exactly six sequential contract reads, in the order Morpho balanceOf, Morpho
convertToAssets, Aave USDC balanceOf, Aave debt balanceOf, Euler balanceOf,
Euler convertToAssets — six reads, not the five stated in the claim. -/
theorem get_balances_six_reads (o : Nat → ContractCall → Except Unit Nat)
    (u : String) (fuel t : Nat) (st : RpcState) (r : BalanceReading)
    (cs : List ContractCall) (st_1 : RpcState) (w : Nat)
    (h : get_balances o u fuel t st = some (r, cs, st_1, w)) :
    (∃ ms es, cs =
      [⟨MORPHO_DEFAULT, Method.balanceOf, CallArg.addr u⟩,
       ⟨MORPHO_DEFAULT, Method.convertToAssets, CallArg.amount ms⟩,
       ⟨AAVE_USDC, Method.balanceOf, CallArg.addr u⟩,
       ⟨AAVE_DEBT, Method.balanceOf, CallArg.addr u⟩,
       ⟨EULER_USDC_EARN, Method.balanceOf, CallArg.addr u⟩,
       ⟨EULER_USDC_EARN, Method.convertToAssets, CallArg.amount es⟩])
    ∧ cs.length = 6 := by
  obtain ⟨n, _, _, hok, _, _⟩ := get_balances_some_inv o u fuel t st r cs st_1 w h
  obtain ⟨ms, es, rfl⟩ := attempt_reads_ok_shape (o (t + n)) u r cs hok
  exact ⟨⟨ms, es, rfl⟩, rfl⟩

/-- A mocked chain where every read succeeds immediately with 0. -/
def allok_oracle : Nat → ContractCall → Except Unit Nat :=
  fun _ _ => Except.ok 0

/-- C9 counterexample: a concrete fully successful invocation of get_balances
whose trace has six contract reads, not five. -/
theorem get_balances_five_reads_false :
    (get_balances allok_oracle USER 1 0 ⟨0, "e"⟩).map (fun out => out.2.1.length) = some 6
    ∧ ¬ ((get_balances allok_oracle USER 1 0 ⟨0, "e"⟩).map
          (fun out => out.2.1.length) = some 5) := by
  constructor
  · rfl
  · intro h
    have h6 : (get_balances allok_oracle USER 1 0
        ⟨0, "e"⟩).map (fun out => out.2.1.length) = some 6 := rfl
    rw [h6] at h
    cases h

theorem get_balances_six_reads_witness :
    (∃ ms es,
      ([⟨MORPHO_DEFAULT, Method.balanceOf, CallArg.addr USER⟩,
        ⟨MORPHO_DEFAULT, Method.convertToAssets, CallArg.amount 0⟩,
        ⟨AAVE_USDC, Method.balanceOf, CallArg.addr USER⟩,
        ⟨AAVE_DEBT, Method.balanceOf, CallArg.addr USER⟩,
        ⟨EULER_USDC_EARN, Method.balanceOf, CallArg.addr USER⟩,
        ⟨EULER_USDC_EARN, Method.convertToAssets, CallArg.amount 0⟩] :
          List ContractCall) =
      [⟨MORPHO_DEFAULT, Method.balanceOf, CallArg.addr USER⟩,
       ⟨MORPHO_DEFAULT, Method.convertToAssets, CallArg.amount ms⟩,
       ⟨AAVE_USDC, Method.balanceOf, CallArg.addr USER⟩,
       ⟨AAVE_DEBT, Method.balanceOf, CallArg.addr USER⟩,
       ⟨EULER_USDC_EARN, Method.balanceOf, CallArg.addr USER⟩,
       ⟨EULER_USDC_EARN, Method.convertToAssets, CallArg.amount es⟩])
    ∧ ([⟨MORPHO_DEFAULT, Method.balanceOf, CallArg.addr USER⟩,
        ⟨MORPHO_DEFAULT, Method.convertToAssets, CallArg.amount 0⟩,
        ⟨AAVE_USDC, Method.balanceOf, CallArg.addr USER⟩,
        ⟨AAVE_DEBT, Method.balanceOf, CallArg.addr USER⟩,
        ⟨EULER_USDC_EARN, Method.balanceOf, CallArg.addr USER⟩,
        ⟨EULER_USDC_EARN, Method.convertToAssets, CallArg.amount 0⟩] :
          List ContractCall).length = 6 :=
  get_balances_six_reads allok_oracle USER 1 0 ⟨0, "e"⟩ (raw_reading 0 0 0 0)
    [⟨MORPHO_DEFAULT, Method.balanceOf, CallArg.addr USER⟩,
     ⟨MORPHO_DEFAULT, Method.convertToAssets, CallArg.amount 0⟩,
     ⟨AAVE_USDC, Method.balanceOf, CallArg.addr USER⟩,
     ⟨AAVE_DEBT, Method.balanceOf, CallArg.addr USER⟩,
     ⟨EULER_USDC_EARN, Method.balanceOf, CallArg.addr USER⟩,
     ⟨EULER_USDC_EARN, Method.convertToAssets, CallArg.amount 0⟩]
    ⟨0, "e"⟩ 0 (by rfl)

/-- C10: when every read of the first attempt succeeds, get_balances leaves the
RPC failover state (current_rpc_index and provider) unchanged and sleeps no
backoff: switch_rpc is reached only on the failure path. -/
theorem get_balances_frame (o : Nat → ContractCall → Except Unit Nat) (u : String)
    (st : RpcState) (fuel : Nat) (r : BalanceReading) (cs : List ContractCall)
    (hok : attempt_reads (o 0) u = Except.ok (r, cs)) (hf : 0 < fuel) :
    get_balances o u fuel 0 st = some (r, cs, st, 0) := by
  have h := get_balances_ok_of_first_success o u 0 0 fuel st r cs
      (by intro d hd; exact absurd hd (by omega)) (by simpa using hok) hf
  simpa using h

theorem get_balances_frame_witness :
    get_balances allok_oracle USER 1 0 ⟨0, "https://arbitrum-one-rpc.publicnode.com"⟩
      = some (raw_reading 0 0 0 0,
              [⟨MORPHO_DEFAULT, Method.balanceOf, CallArg.addr USER⟩,
               ⟨MORPHO_DEFAULT, Method.convertToAssets, CallArg.amount 0⟩,
               ⟨AAVE_USDC, Method.balanceOf, CallArg.addr USER⟩,
               ⟨AAVE_DEBT, Method.balanceOf, CallArg.addr USER⟩,
               ⟨EULER_USDC_EARN, Method.balanceOf, CallArg.addr USER⟩,
               ⟨EULER_USDC_EARN, Method.convertToAssets, CallArg.amount 0⟩],
              ⟨0, "https://arbitrum-one-rpc.publicnode.com"⟩, 0) :=
  get_balances_frame allok_oracle USER
    ⟨0, "https://arbitrum-one-rpc.publicnode.com"⟩ 1 (raw_reading 0 0 0 0)
    [⟨MORPHO_DEFAULT, Method.balanceOf, CallArg.addr USER⟩,
     ⟨MORPHO_DEFAULT, Method.convertToAssets, CallArg.amount 0⟩,
     ⟨AAVE_USDC, Method.balanceOf, CallArg.addr USER⟩,
     ⟨AAVE_DEBT, Method.balanceOf, CallArg.addr USER⟩,
     ⟨EULER_USDC_EARN, Method.balanceOf, CallArg.addr USER⟩,
     ⟨EULER_USDC_EARN, Method.convertToAssets, CallArg.amount 0⟩]
    (by rfl) (by omega)

theorem switch_rpc_round_robin_witness :
    (((switch_rpc_in RPC_ENDPOINTS)^[5] ⟨0, "https://arbitrum-one-rpc.publicnode.com"⟩).current_rpc_index = 0
      ↔ RPC_ENDPOINTS.length ∣ 5) :=
  (switch_rpc_round_robin RPC_ENDPOINTS
    ⟨0, "https://arbitrum-one-rpc.publicnode.com"⟩ 5 (by decide) (by decide)).2.2.2.1

/-! ## SnapshotStore (SQLite table defi_snapshots) -/

/-- One row of the defi_snapshots table. -/
structure Snapshot where
  id : Nat
  timestamp : String
  address : String
  morpho : ℚ
  aave : ℚ
  euler : ℚ
  debt : ℚ
  net : ℚ
deriving DecidableEq, Repr

/-- The table: rows in insertion order plus the AUTOINCREMENT sequence value
(the id handed to the next insert is seq + 1; ids are never reused). -/
structure DB where
  rows : List Snapshot
  seq : Nat
deriving DecidableEq, Repr

def emptyDB : DB := ⟨[], 0⟩

/-- Store invariant guaranteed by AUTOINCREMENT with a single producer: ids
strictly increase along insertion order and never exceed the sequence value. -/
def DB.WF (db : DB) : Prop :=
  db.rows.Pairwise (fun a b => a.id < b.id) ∧ ∀ r ∈ db.rows, r.id ≤ db.seq

/-- ORDER BY id DESC over the table contents. -/
def orderByIdDesc (rows : List Snapshot) : List Snapshot :=
  List.insertionSort (fun a b => b.id ≤ a.id) rows

/-- save_snapshot: INSERT assigning the next AUTOINCREMENT id. -/
def save_snapshot (address : String) (timestamp : String) (b : BalanceReading)
    (db : DB) : DB :=
  { rows := db.rows ++
      [⟨db.seq + 1, timestamp, address, b.morpho, b.aave, b.euler, b.debt, b.net⟩],
    seq := db.seq + 1 }

/-- A sequence of consecutive successful append calls. -/
def appendSeq : List (String × String × BalanceReading) → DB → DB
  | [], db => db
  | it :: its, db => appendSeq its (save_snapshot it.1 it.2.1 it.2.2 db)

/-- cleanup_database: if COUNT(*) > limit, DELETE the rows whose id is NOT IN
the limit highest ids (SELECT id ORDER BY id DESC LIMIT limit). -/
def cleanup_database (limit : Nat) (db : DB) : DB :=
  if db.rows.length > limit then
    let keep := ((orderByIdDesc db.rows).take limit).map (fun r => r.id)
    { db with rows := db.rows.filter (fun r => decide (r.id ∈ keep)) }
  else db

/-- The /api/latest query: SELECT * ORDER BY id DESC LIMIT 1; `none` models the
404 "No hay datos aún" response. -/
def latest_snapshot (db : DB) : Option Snapshot :=
  (orderByIdDesc db.rows).head?

/-- The /api/history query: SELECT * ORDER BY id DESC LIMIT 50. -/
def history (db : DB) : List Snapshot :=
  (orderByIdDesc db.rows).take 50

lemma orderedInsert_eq_append (x : Snapshot) (l : List Snapshot)
    (hall : ∀ y ∈ l, x.id < y.id) :
    List.orderedInsert (fun a b => b.id ≤ a.id) x l = l ++ [x] := by
  induction l with
  | nil => rfl
  | cons y t ih =>
      have hy : x.id < y.id := hall y (List.mem_cons_self y t)
      have hrest : ∀ z ∈ t, x.id < z.id := fun z hz => hall z (List.mem_cons_of_mem y hz)
      simp only [List.orderedInsert]
      rw [if_neg (by omega), ih hrest]
      rfl

lemma orderByIdDesc_eq_reverse (rows : List Snapshot)
    (h : rows.Pairwise (fun a b => a.id < b.id)) :
    orderByIdDesc rows = rows.reverse := by
  induction rows with
  | nil => rfl
  | cons x xs ih =>
      rw [List.pairwise_cons] at h
      obtain ⟨hx, hxs⟩ := h
      show List.orderedInsert (fun a b => b.id ≤ a.id) x
          (List.insertionSort (fun a b => b.id ≤ a.id) xs) = (x :: xs).reverse
      have hsort : List.insertionSort (fun a b => b.id ≤ a.id) xs = xs.reverse := ih hxs
      rw [hsort, orderedInsert_eq_append x xs.reverse
        (fun y hy => hx y (List.mem_reverse.mp hy))]
      simp

lemma save_snapshot_wf (a t : String) (b : BalanceReading) (db : DB) (h : db.WF) :
    (save_snapshot a t b db).WF := by
  obtain ⟨hpw, hle⟩ := h
  refine ⟨?_, ?_⟩
  · show List.Pairwise (fun a b => a.id < b.id)
        (db.rows ++ [⟨db.seq + 1, t, a, b.morpho, b.aave, b.euler, b.debt, b.net⟩])
    rw [List.pairwise_append]
    refine ⟨hpw, List.pairwise_singleton _ _, ?_⟩
    intro x hx y hy
    rw [List.mem_singleton] at hy
    subst hy
    have := hle x hx
    show x.id < db.seq + 1
    omega
  · intro r hr
    show r.id ≤ db.seq + 1
    have hr2 : r ∈ db.rows
        ++ [⟨db.seq + 1, t, a, b.morpho, b.aave, b.euler, b.debt, b.net⟩] := hr
    rw [List.mem_append] at hr2
    rcases hr2 with hr2 | hr2
    · have := hle r hr2
      omega
    · rw [List.mem_singleton] at hr2
      subst hr2
      exact Nat.le_refl _

lemma appendSeq_wf (items : List (String × String × BalanceReading)) :
    ∀ db : DB, db.WF → (appendSeq items db).WF := by
  induction items with
  | nil => intro db h; exact h
  | cons it its ih =>
      intro db h
      exact ih _ (save_snapshot_wf it.1 it.2.1 it.2.2 db h)

lemma appendSeq_ids (items : List (String × String × BalanceReading)) :
    ∀ db : DB,
      (appendSeq items db).rows.map (fun r => r.id)
        = db.rows.map (fun r => r.id) ++ List.range' (db.seq + 1) items.length
      ∧ (appendSeq items db).seq = db.seq + items.length := by
  induction items with
  | nil => intro db; simp [appendSeq]
  | cons it its ih =>
      intro db
      obtain ⟨hmap, hseq⟩ := ih (save_snapshot it.1 it.2.1 it.2.2 db)
      constructor
      · rw [show appendSeq (it :: its) db
            = appendSeq its (save_snapshot it.1 it.2.1 it.2.2 db) from rfl, hmap]
        simp only [save_snapshot, List.map_append, List.map_cons, List.map_nil,
          List.append_assoc, List.singleton_append, List.length_cons, List.range'_succ]
      · rw [show appendSeq (it :: its) db
            = appendSeq its (save_snapshot it.1 it.2.1 it.2.2 db) from rfl, hseq]
        show db.seq + 1 + its.length = db.seq + (its.length + 1)
        omega

lemma appendSeq_length (items : List (String × String × BalanceReading)) (db : DB) :
    (appendSeq items db).rows.length = db.rows.length + items.length := by
  have h := (appendSeq_ids items db).1
  have hlen := congrArg List.length h
  simpa using hlen

lemma filter_keep_suffix (pre suf : List Snapshot)
    (hcross : ∀ x ∈ pre, ∀ y ∈ suf, x.id < y.id) :
    (pre ++ suf).filter
        (fun r => decide (r.id ∈ (suf.map (fun r => r.id)).reverse)) = suf := by
  rw [List.filter_append]
  have hpre : pre.filter
      (fun r => decide (r.id ∈ (suf.map (fun r => r.id)).reverse)) = [] := by
    rw [List.filter_eq_nil_iff]
    intro r hr hmem
    rw [decide_eq_true_iff, List.mem_reverse, List.mem_map] at hmem
    obtain ⟨s, hs, hsid⟩ := hmem
    have := hcross r hr s hs
    omega
  have hsuf : suf.filter
      (fun r => decide (r.id ∈ (suf.map (fun r => r.id)).reverse)) = suf := by
    rw [List.filter_eq_self]
    intro r hr
    rw [decide_eq_true_iff, List.mem_reverse]
    exact List.mem_map_of_mem (fun r => r.id) hr
  rw [hpre, hsuf, List.nil_append]

lemma cleanup_database_drop (limit : Nat) (db : DB)
    (hpw : db.rows.Pairwise (fun a b => a.id < b.id))
    (hlt : limit < db.rows.length) :
    (cleanup_database limit db).rows = db.rows.drop (db.rows.length - limit) := by
  unfold cleanup_database
  rw [if_pos (by omega)]
  show db.rows.filter _ = _
  have hsort : orderByIdDesc db.rows = db.rows.reverse := orderByIdDesc_eq_reverse _ hpw
  have hkeep : ((orderByIdDesc db.rows).take limit).map (fun r => r.id)
      = ((db.rows.drop (db.rows.length - limit)).map (fun r => r.id)).reverse := by
    rw [hsort, List.take_reverse, List.map_reverse]
  rw [hkeep]
  have hcross : ∀ x ∈ db.rows.take (db.rows.length - limit),
      ∀ y ∈ db.rows.drop (db.rows.length - limit), x.id < y.id := by
    have hpw2 : List.Pairwise (fun a b => a.id < b.id)
        (db.rows.take (db.rows.length - limit)
          ++ db.rows.drop (db.rows.length - limit)) := by
      rw [List.take_append_drop]
      exact hpw
    rw [List.pairwise_append] at hpw2
    exact hpw2.2.2
  have hmain := filter_keep_suffix (db.rows.take (db.rows.length - limit))
      (db.rows.drop (db.rows.length - limit)) hcross
  rw [List.take_append_drop] at hmain
  exact hmain

lemma cleanup_database_noop (limit : Nat) (db : DB)
    (hle : db.rows.length ≤ limit) :
    cleanup_database limit db = db := by
  unfold cleanup_database
  rw [if_neg (by omega)]

lemma drop_range' : ∀ (m s n : Nat), (List.range' s n).drop m = List.range' (s + m) (n - m) := by
  intro m
  induction m with
  | zero => intro s n; simp
  | succ k ih =>
      intro s n
      match n with
      | 0 => simp
      | n + 1 =>
          rw [List.range'_succ, List.drop_succ_cons, ih (s + 1) n]
          have h1 : s + 1 + k = s + (k + 1) := by omega
          have h2 : n - k = n + 1 - (k + 1) := by omega
          rw [h1, h2]

def demoReading : BalanceReading := ⟨0, 0, 0, 0, 0⟩

lemma emptyDB_wf : emptyDB.WF :=
  ⟨List.Pairwise.nil, fun r hr => absurd hr (List.not_mem_nil r)⟩

/-- C1: after any sequence of successful appends leaving more than `limit`
rows, cleanup_database deletes the lowest-id rows so that exactly `limit` rows
remain, namely the `limit` most recently appended (highest-id) rows — the tail
of the insertion order; with at most `limit` rows the store is unchanged; and
appending 10005 snapshots to an empty store with limit 10000 leaves 10000 rows
whose ids are 6..10005, so the minimum surviving id is 6. -/
theorem cleanup_database_retention :
    (∀ db : DB, db.WF →
      ∀ (items : List (String × String × BalanceReading)) (limit : Nat),
       ((appendSeq items db).rows.length > limit →
          (cleanup_database limit (appendSeq items db)).rows
              = (appendSeq items db).rows.drop
                  ((appendSeq items db).rows.length - limit)
          ∧ (cleanup_database limit (appendSeq items db)).rows.length = limit)
       ∧ ((appendSeq items db).rows.length ≤ limit →
            cleanup_database limit (appendSeq items db) = appendSeq items db))
    ∧ (cleanup_database 10000
          (appendSeq (List.replicate 10005 ("a", "t", demoReading)) emptyDB)).rows.length
        = 10000
    ∧ (cleanup_database 10000
          (appendSeq (List.replicate 10005 ("a", "t", demoReading)) emptyDB)).rows.map
            (fun r => r.id)
        = List.range' 6 10000
    ∧ ∀ r ∈ (cleanup_database 10000
          (appendSeq (List.replicate 10005 ("a", "t", demoReading)) emptyDB)).rows,
        6 ≤ r.id := by
  have hgeneral : ∀ db : DB, db.WF →
      ∀ (items : List (String × String × BalanceReading)) (limit : Nat),
       ((appendSeq items db).rows.length > limit →
          (cleanup_database limit (appendSeq items db)).rows
              = (appendSeq items db).rows.drop
                  ((appendSeq items db).rows.length - limit)
          ∧ (cleanup_database limit (appendSeq items db)).rows.length = limit)
       ∧ ((appendSeq items db).rows.length ≤ limit →
            cleanup_database limit (appendSeq items db) = appendSeq items db) := by
    intro db hwf items limit
    have hwf2 := appendSeq_wf items db hwf
    constructor
    · intro hgt
      have hdrop := cleanup_database_drop limit (appendSeq items db) hwf2.1 (by omega)
      refine ⟨hdrop, ?_⟩
      rw [hdrop, List.length_drop]
      omega
    · intro hle
      exact cleanup_database_noop limit (appendSeq items db) hle
  have hlen : (appendSeq (List.replicate 10005 ("a", "t", demoReading)) emptyDB).rows.length
      = 10005 := by
    rw [appendSeq_length, List.length_replicate]
    rfl
  have hids : (appendSeq (List.replicate 10005 ("a", "t", demoReading)) emptyDB).rows.map
      (fun r => r.id) = List.range' 1 10005 := by
    have h := (appendSeq_ids (List.replicate 10005 ("a", "t", demoReading)) emptyDB).1
    rw [h, List.length_replicate]
    rfl
  have hdrop5 := (hgeneral emptyDB emptyDB_wf
      (List.replicate 10005 ("a", "t", demoReading)) 10000).1 (by rw [hlen]; omega)
  have hrows : (cleanup_database 10000
      (appendSeq (List.replicate 10005 ("a", "t", demoReading)) emptyDB)).rows
      = (appendSeq (List.replicate 10005 ("a", "t", demoReading)) emptyDB).rows.drop 5 := by
    rw [hdrop5.1, hlen]
  have hmap : (cleanup_database 10000
      (appendSeq (List.replicate 10005 ("a", "t", demoReading)) emptyDB)).rows.map
        (fun r => r.id) = List.range' 6 10000 := by
    rw [hrows, List.map_drop, hids, drop_range']
  refine ⟨hgeneral, hdrop5.2, hmap, ?_⟩
  intro r hr
  have hmem : r.id ∈ List.range' 6 10000 := by
    rw [← hmap]
    exact List.mem_map_of_mem (fun s : Snapshot => s.id) hr
  rw [List.mem_range'_1] at hmem
  omega

theorem cleanup_database_retention_witness :
    (cleanup_database 0 (appendSeq [("a", "t", demoReading)] emptyDB)).rows
        = (appendSeq [("a", "t", demoReading)] emptyDB).rows.drop
            ((appendSeq [("a", "t", demoReading)] emptyDB).rows.length - 0)
    ∧ (cleanup_database 0 (appendSeq [("a", "t", demoReading)] emptyDB)).rows.length = 0 :=
  (cleanup_database_retention.1 emptyDB emptyDB_wf [("a", "t", demoReading)] 0).1 (by decide)

/-- C7: the /api/latest query returns the highest-id record when the store is
non-empty, and on an empty store the explicit "No hay datos aún" empty result
(`none`, rendered as the 404 response), never a default-valued record. -/
theorem latest_snapshot_spec (db : DB) (hwf : db.WF) :
    (db.rows = [] → latest_snapshot db = none)
    ∧ (db.rows ≠ [] → ∃ r, latest_snapshot db = some r ∧ r ∈ db.rows
        ∧ ∀ s ∈ db.rows, s.id ≤ r.id) := by
  have hrev : latest_snapshot db = db.rows.reverse.head? := by
    unfold latest_snapshot
    rw [orderByIdDesc_eq_reverse db.rows hwf.1]
  constructor
  · intro h
    rw [hrev, h]
    rfl
  · intro h
    have hne : db.rows.reverse ≠ [] := by simpa using h
    obtain ⟨r, t, hrt⟩ := List.exists_cons_of_ne_nil hne
    refine ⟨r, ?_, ?_, ?_⟩
    · rw [hrev, hrt]
      rfl
    · have hmem : r ∈ db.rows.reverse := by
        rw [hrt]
        exact List.mem_cons_self r t
      exact List.mem_reverse.mp hmem
    · intro s hs
      have hpairs : db.rows.reverse.Pairwise (fun a b => b.id < a.id) :=
        List.pairwise_reverse.mpr hwf.1
      rw [hrt, List.pairwise_cons] at hpairs
      have hs2 : s ∈ db.rows.reverse := List.mem_reverse.mpr hs
      rw [hrt] at hs2
      rcases List.mem_cons.mp hs2 with heq | hmem
      · subst heq
        exact Nat.le_refl _
      · exact Nat.le_of_lt (hpairs.1 s hmem)

def dbDemo : DB := ⟨[⟨1, "t1", "a", 0, 0, 0, 0, 1⟩, ⟨2, "t2", "a", 0, 0, 0, 0, 2⟩], 2⟩

theorem latest_snapshot_spec_witness :
    ∃ r, latest_snapshot dbDemo = some r ∧ r ∈ dbDemo.rows
      ∧ ∀ s ∈ dbDemo.rows, s.id ≤ r.id :=
  (latest_snapshot_spec dbDemo ⟨by decide, by decide⟩).2 (by decide)

/-- C8: the /api/history query returns the at most 50 highest-id records, in
strictly descending id order, exactly the reversed tail of the insertion
order (no gaps), and fewer than 50 — possibly none — when the store holds
fewer. -/
theorem history_spec (db : DB) (hwf : db.WF) :
    history db = db.rows.reverse.take 50
    ∧ history db = (db.rows.drop (db.rows.length - 50)).reverse
    ∧ (history db).Pairwise (fun a b => b.id < a.id)
    ∧ (history db).length = min 50 db.rows.length := by
  have h1 : history db = db.rows.reverse.take 50 := by
    unfold history
    rw [orderByIdDesc_eq_reverse db.rows hwf.1]
  refine ⟨h1, ?_, ?_, ?_⟩
  · rw [h1, List.take_reverse]
  · rw [h1]
    have hrevpw : db.rows.reverse.Pairwise (fun a b => b.id < a.id) :=
      List.pairwise_reverse.mpr hwf.1
    exact List.Pairwise.sublist (List.take_sublist _ _) hrevpw
  · rw [h1, List.length_take, List.length_reverse]

theorem history_spec_witness :
    history dbDemo = dbDemo.rows.reverse.take 50
    ∧ history dbDemo = (dbDemo.rows.drop (dbDemo.rows.length - 50)).reverse
    ∧ (history dbDemo).Pairwise (fun a b => b.id < a.id)
    ∧ (history dbDemo).length = min 50 dbDemo.rows.length :=
  history_spec dbDemo ⟨by decide, by decide⟩

/-! ## The /api/stats endpoint -/

/-- SQL AVG over the scanned column: NULL on an empty set. -/
def sql_avg (xs : List ℚ) : Option ℚ :=
  match xs with
  | [] => none
  | _ => some (xs.sum / xs.length)

/-- SQL MIN over the scanned column: NULL on an empty set. -/
def sql_min : List ℚ → Option ℚ
  | [] => none
  | x :: t => some (t.foldl min x)

/-- SQL MAX over the scanned column: NULL on an empty set. -/
def sql_max : List ℚ → Option ℚ
  | [] => none
  | x :: t => some (t.foldl max x)

/-- Python truthiness of the avg_net value: None and 0.0 are falsy. -/
def truthy : Option ℚ → Bool
  | none => false
  | some x => decide (x ≠ 0)

/-- The JSON responses of /api/stats: a 200 payload or the 404 branch. -/
inductive StatsResponse
  | ok (average_net min_net max_net : Option ℚ) (variation : ℚ)
  | no_data
deriving DecidableEq, Repr

/-- stats: SELECT AVG(net), MIN(net), MAX(net) over the 1000 highest-id rows.
An aggregate SELECT always yields exactly one row (NULL columns when the
scanned set is empty), so fetchone is always `some` and `if row:` always takes
the 200 branch; variation is `(max_net - min_net) if avg_net else 0`. -/
def stats (db : DB) : StatsResponse :=
  let nets := ((orderByIdDesc db.rows).take 1000).map (fun r => r.net)
  let row : Option (Option ℚ × Option ℚ × Option ℚ) :=
    some (sql_avg nets, sql_min nets, sql_max nets)
  match row with
  | some (avg_net, min_net, max_net) =>
      StatsResponse.ok avg_net min_net max_net
        (if truthy avg_net then max_net.getD 0 - min_net.getD 0 else 0)
  | none => StatsResponse.no_data

/-- C4 (the code violates the claim): on an empty store, stats returns the 200
response with NULL aggregates and variation 0 — the 404 "No hay datos
suficientes" branch is dead because an aggregate SELECT always returns a row. -/
theorem stats_empty_returns_ok :
    stats emptyDB = StatsResponse.ok none none none 0
    ∧ stats emptyDB ≠ StatsResponse.no_data := by
  constructor
  · rfl
  · intro h
    rw [show stats emptyDB = StatsResponse.ok none none none 0 from rfl] at h
    exact StatsResponse.noConfusion h

lemma foldl_min_le_init (t : List ℚ) : ∀ x : ℚ, t.foldl min x ≤ x := by
  induction t with
  | nil => intro x; exact le_refl x
  | cons y t ih =>
      intro x
      exact le_trans (ih (min x y)) (min_le_left x y)

lemma foldl_min_le_mem (t : List ℚ) : ∀ (x y : ℚ), y ∈ t → t.foldl min x ≤ y := by
  induction t with
  | nil => intro x y hy; exact absurd hy (List.not_mem_nil y)
  | cons z t ih =>
      intro x y hy
      rcases List.mem_cons.mp hy with heq | hmem
      · subst heq
        exact le_trans (foldl_min_le_init t (min x y)) (min_le_right x y)
      · exact ih (min x z) y hmem

lemma foldl_min_mem (t : List ℚ) : ∀ x : ℚ, t.foldl min x ∈ x :: t := by
  induction t with
  | nil => intro x; exact List.mem_cons_self x []
  | cons y t ih =>
      intro x
      show List.foldl min (min x y) t ∈ x :: y :: t
      have h := ih (min x y)
      rcases List.mem_cons.mp h with heq | hmem
      · rcases min_choice x y with hc | hc
        · rw [heq, hc]
          exact List.mem_cons_self _ _
        · rw [heq, hc]
          exact List.mem_cons_of_mem _ (List.mem_cons_self _ _)
      · exact List.mem_cons_of_mem _ (List.mem_cons_of_mem _ hmem)

lemma foldl_max_ge_init (t : List ℚ) : ∀ x : ℚ, x ≤ t.foldl max x := by
  induction t with
  | nil => intro x; exact le_refl x
  | cons y t ih =>
      intro x
      exact le_trans (le_max_left x y) (ih (max x y))

lemma foldl_max_ge_mem (t : List ℚ) : ∀ (x y : ℚ), y ∈ t → y ≤ t.foldl max x := by
  induction t with
  | nil => intro x y hy; exact absurd hy (List.not_mem_nil y)
  | cons z t ih =>
      intro x y hy
      rcases List.mem_cons.mp hy with heq | hmem
      · subst heq
        exact le_trans (le_max_right x y) (foldl_max_ge_init t (max x y))
      · exact ih (max x z) y hmem

lemma foldl_max_mem (t : List ℚ) : ∀ x : ℚ, t.foldl max x ∈ x :: t := by
  induction t with
  | nil => intro x; exact List.mem_cons_self x []
  | cons y t ih =>
      intro x
      show List.foldl max (max x y) t ∈ x :: y :: t
      have h := ih (max x y)
      rcases List.mem_cons.mp h with heq | hmem
      · rcases max_choice x y with hc | hc
        · rw [heq, hc]
          exact List.mem_cons_self _ _
        · rw [heq, hc]
          exact List.mem_cons_of_mem _ (List.mem_cons_self _ _)
      · exact List.mem_cons_of_mem _ (List.mem_cons_of_mem _ hmem)

lemma sql_min_spec (xs : List ℚ) (h : xs ≠ []) :
    ∃ m, sql_min xs = some m ∧ m ∈ xs ∧ ∀ y ∈ xs, m ≤ y := by
  match xs with
  | [] => exact absurd rfl h
  | x :: t =>
      refine ⟨t.foldl min x, rfl, foldl_min_mem t x, ?_⟩
      intro y hy
      rcases List.mem_cons.mp hy with heq | hmem
      · subst heq
        exact foldl_min_le_init t y
      · exact foldl_min_le_mem t x y hmem

lemma sql_max_spec (xs : List ℚ) (h : xs ≠ []) :
    ∃ m, sql_max xs = some m ∧ m ∈ xs ∧ ∀ y ∈ xs, y ≤ m := by
  match xs with
  | [] => exact absurd rfl h
  | x :: t =>
      refine ⟨t.foldl max x, rfl, foldl_max_mem t x, ?_⟩
      intro y hy
      rcases List.mem_cons.mp hy with heq | hmem
      · subst heq
        exact foldl_max_ge_init t y
      · exact foldl_max_ge_mem t x y hmem

lemma sql_avg_spec (xs : List ℚ) (h : xs ≠ []) :
    sql_avg xs = some (xs.sum / xs.length) := by
  match xs with
  | [] => exact absurd rfl h
  | x :: t => rfl

/-- C5 (amended): on a non-empty store, stats computes average, min and max
over the net field of the (up to) 1000 most recent records taken descending by
id, and the returned variation equals max − min whenever the window average
net is nonzero; when the average is exactly zero the Python truthiness guard
`if avg_net` makes the returned variation 0 instead. -/
theorem stats_window (db : DB) (hwf : db.WF) (hne : db.rows ≠ []) :
    ∃ a mn mx : ℚ,
      stats db = StatsResponse.ok (some a) (some mn) (some mx)
          (if a ≠ 0 then mx - mn else 0)
      ∧ a = ((db.rows.reverse.take 1000).map (fun r => r.net)).sum
            / ((db.rows.reverse.take 1000).map (fun r => r.net)).length
      ∧ mn ∈ (db.rows.reverse.take 1000).map (fun r => r.net)
      ∧ (∀ y ∈ (db.rows.reverse.take 1000).map (fun r => r.net), mn ≤ y)
      ∧ mx ∈ (db.rows.reverse.take 1000).map (fun r => r.net)
      ∧ (∀ y ∈ (db.rows.reverse.take 1000).map (fun r => r.net), y ≤ mx) := by
  have hlen : ((db.rows.reverse.take 1000).map (fun r => r.net)).length
      = min 1000 db.rows.length := by
    rw [List.length_map, List.length_take, List.length_reverse]
  have hne2 : (db.rows.reverse.take 1000).map (fun r => r.net) ≠ [] := by
    apply List.length_pos.mp
    rw [hlen]
    have := List.length_pos.mpr hne
    omega
  have hstats : stats db = StatsResponse.ok
      (sql_avg (((orderByIdDesc db.rows).take 1000).map (fun r => r.net)))
      (sql_min (((orderByIdDesc db.rows).take 1000).map (fun r => r.net)))
      (sql_max (((orderByIdDesc db.rows).take 1000).map (fun r => r.net)))
      (if truthy (sql_avg (((orderByIdDesc db.rows).take 1000).map (fun r => r.net)))
        then (sql_max (((orderByIdDesc db.rows).take 1000).map (fun r => r.net))).getD 0
              - (sql_min (((orderByIdDesc db.rows).take 1000).map (fun r => r.net))).getD 0
        else 0) := rfl
  rw [orderByIdDesc_eq_reverse db.rows hwf.1] at hstats
  have havg := sql_avg_spec _ hne2
  obtain ⟨mn, hmn, hmnmem, hmnle⟩ := sql_min_spec _ hne2
  obtain ⟨mx, hmx, hmxmem, hmxle⟩ := sql_max_spec _ hne2
  refine ⟨((db.rows.reverse.take 1000).map (fun r => r.net)).sum
            / ((db.rows.reverse.take 1000).map (fun r => r.net)).length,
          mn, mx, ?_, rfl, hmnmem, hmnle, hmxmem, hmxle⟩
  rw [hstats, havg, hmn, hmx]
  by_cases h0 : ((db.rows.reverse.take 1000).map (fun r => r.net)).sum
      / ((db.rows.reverse.take 1000).map (fun r => r.net)).length = 0
  · simp [truthy, h0]
  · simp [truthy, h0]

/-- A store whose two rows have nets 5 and -5, so the stats window has average
net exactly 0 while max - min = 10. -/
def dbC5 : DB := ⟨[⟨1, "t1", "a", 0, 0, 0, 0, 5⟩, ⟨2, "t2", "a", 0, 0, 0, 0, -5⟩], 2⟩

/-- C5 counterexample: on a non-empty store whose window average net is 0, the
returned variation is 0, not max − min = 10. -/
theorem stats_variation_counterexample :
    stats dbC5 = StatsResponse.ok (some 0) (some (-5)) (some 5) 0
    ∧ (5 : ℚ) - (-5) ≠ 0 := by
  constructor
  · have hpw : List.Pairwise (fun a b => a.id < b.id) dbC5.rows := by decide
    have hstats : stats dbC5 = StatsResponse.ok
        (sql_avg (((orderByIdDesc dbC5.rows).take 1000).map (fun r => r.net)))
        (sql_min (((orderByIdDesc dbC5.rows).take 1000).map (fun r => r.net)))
        (sql_max (((orderByIdDesc dbC5.rows).take 1000).map (fun r => r.net)))
        (if truthy (sql_avg (((orderByIdDesc dbC5.rows).take 1000).map (fun r => r.net)))
          then (sql_max (((orderByIdDesc dbC5.rows).take 1000).map (fun r => r.net))).getD 0
                - (sql_min (((orderByIdDesc dbC5.rows).take 1000).map (fun r => r.net))).getD 0
          else 0) := rfl
    rw [orderByIdDesc_eq_reverse dbC5.rows hpw] at hstats
    have hX : (dbC5.rows.reverse.take 1000).map (fun r => r.net) = [(-5 : ℚ), 5] := rfl
    rw [hX] at hstats
    rw [hstats]
    have havg : sql_avg [(-5 : ℚ), 5] = some 0 := by
      rw [sql_avg_spec _ (by simp)]
      norm_num [List.sum_cons, List.sum_nil]
    have hmin : sql_min [(-5 : ℚ), 5] = some (-5) := by
      show some (List.foldl min (-5) [5]) = some (-5 : ℚ)
      norm_num [min_def]
    have hmax : sql_max [(-5 : ℚ), 5] = some 5 := by
      show some (List.foldl max (-5) [5]) = some (5 : ℚ)
      norm_num [max_def]
    rw [havg, hmin, hmax]
    norm_num [truthy]
  · norm_num

theorem stats_window_witness :
    ∃ a mn mx : ℚ,
      stats dbC5 = StatsResponse.ok (some a) (some mn) (some mx)
          (if a ≠ 0 then mx - mn else 0)
      ∧ a = ((dbC5.rows.reverse.take 1000).map (fun r => r.net)).sum
            / ((dbC5.rows.reverse.take 1000).map (fun r => r.net)).length
      ∧ mn ∈ (dbC5.rows.reverse.take 1000).map (fun r => r.net)
      ∧ (∀ y ∈ (dbC5.rows.reverse.take 1000).map (fun r => r.net), mn ≤ y)
      ∧ mx ∈ (dbC5.rows.reverse.take 1000).map (fun r => r.net)
      ∧ (∀ y ∈ (dbC5.rows.reverse.take 1000).map (fun r => r.net), y ≤ mx) :=
  stats_window dbC5 ⟨by decide, by decide⟩ (by decide)
